import Mathlib

/-! # my_awesome_cpp_app: the `Example` value holder

Shallow embedding of `src/example.cpp`.  The class has one field, `value_`, of
C++ type `int`, a constructor, a `const` getter, a setter and an
add-and-return method.

Machine integers are embedded as `Int` together with the range predicate
`isInt` (the 32-bit `int` range) and the reduction `wrapInt` (two's-complement
wraparound modulo `2^32`), which is applied at the one place where the source
does arithmetic on an `int`: `value_ += amount`.

Methods are embedded by explicit state passing: a method call maps the object
before the call to the object after the call, paired with the returned value
when the method returns one.
-/

namespace my_awesome_cpp_app

/-! ## Machine integers -/

/-- Smallest value of a 32-bit `int`, `-2^31`. -/
def INT_MIN : Int := -2147483648

/-- Largest value of a 32-bit `int`, `2^31 - 1`. -/
def INT_MAX : Int := 2147483647

/-- Range predicate of the C++ type `int` (32 bits, two's complement). -/
def isInt (x : Int) : Prop := INT_MIN ≤ x ∧ x ≤ INT_MAX

instance (x : Int) : Decidable (isInt x) := by
  unfold isInt; exact inferInstance

/-- Reduction of a mathematical integer to the `int` congruent to it modulo
`2^32` (the result of a wrapping 32-bit signed operation). -/
def wrapInt (x : Int) : Int := (x + 2147483648) % 4294967296 - 2147483648

/-! ## The class -/

/-- Modelled from the spec: the class declaration lives in the header
`my_awesome_cpp_app/example.h`, which is not among the sources.  The spec gives
the holder a single attribute, a platform-width signed integer (32-bit); the
source file initialises, reads and writes exactly one member, `value_`, always
through values of type `int`. -/
structure Example where
  value_ : Int
  deriving DecidableEq

namespace Example

/-- Constructor `Example::Example(int value) : value_(value) {}`.  It carries
the spec's name for the operation, `Construct`, since inside this namespace
the source's name is the name of the type. -/
def Construct (value : Int) : Example := { value_ := value }

/-- Method `int Example::getValue() const { return value_; }`: the object after
the call and the returned integer. -/
def getValue (e : Example) : Example × Int := (e, e.value_)

/-- Method `void Example::setValue(int value) { value_ = value; }`: the object
after the call. -/
def setValue (_e : Example) (value : Int) : Example := { value_ := value }

/-- Body of `Example::add` with the behaviour of `int` addition on results
outside the `int` range left as the parameter `ovf`, which maps the exact sum
to the `int` that is stored:
`value_ += amount; return value_;`. -/
def addWith (ovf : Int → Int) (e : Example) (amount : Int) : Example × Int :=
  let e1 : Example := { value_ := ovf (e.value_ + amount) }
  (e1, e1.value_)

/-- Method `int Example::add(int amount) { value_ += amount; return value_; }`
with 32-bit wraparound addition: the object after the call and the returned
integer. -/
def add (e : Example) (amount : Int) : Example × Int :=
  addWith wrapInt e amount

/-- An object whose field holds a value of type `int`. -/
def valid (e : Example) : Prop := isInt e.value_

instance (e : Example) : Decidable (valid e) := by
  unfold valid; exact inferInstance

end Example

/-! ## Calls and call sequences -/

/-- One method call on an existing object. -/
inductive Call where
  | getValue : Call
  | setValue (value : Int) : Call
  | add (amount : Int) : Call
  deriving DecidableEq

/-- Arguments of a call are values of type `int`. -/
def Call.wellTyped : Call → Prop
  | Call.getValue => True
  | Call.setValue value => isInt value
  | Call.add amount => isInt amount

instance : DecidablePred Call.wellTyped
  | Call.getValue => isTrue trivial
  | Call.setValue value => inferInstanceAs (Decidable (isInt value))
  | Call.add amount => inferInstanceAs (Decidable (isInt amount))

/-- Perform one call: the object afterwards and the returned integer, `none`
for the `void` method. -/
def Example.call (e : Example) : Call → Example × Option Int
  | Call.getValue => ((e.getValue).1, some (e.getValue).2)
  | Call.setValue value => (e.setValue value, none)
  | Call.add amount => ((e.add amount).1, some (e.add amount).2)

/-- Perform a sequence of calls in order: the final object and the list of
the results of the calls. -/
def Example.run (e : Example) : List Call → Example × List (Option Int)
  | [] => (e, [])
  | c :: cs => (((e.call c).1.run cs).1, (e.call c).2 :: ((e.call c).1.run cs).2)

/-- The value the spec's state invariant prescribes, read off a call history
listed from the most recent call back to the first: the most recently assigned
integer (the argument of the last `SetValue`, or the initial value `i` when
there is none) plus the amounts of the `Add` calls made after that assignment.
This definition follows the words of the spec, with exact integer addition; it
is compared with what the code computes. -/
def specValueRev (i : Int) : List Call → Int
  | [] => i
  | Call.setValue value :: _ => value
  | Call.add amount :: earlier => specValueRev i earlier + amount
  | Call.getValue :: earlier => specValueRev i earlier

/-- The value the spec's state invariant prescribes after the calls `cs`, made
in order on a holder constructed from `i`. -/
def specValue (i : Int) (cs : List Call) : Int := specValueRev i cs.reverse

/-! ## Facts about the machine-integer reduction -/

theorem wrapInt_eq_self {x : Int} (h : isInt x) : wrapInt x = x := by
  unfold isInt INT_MIN INT_MAX at h
  unfold wrapInt
  omega

theorem wrapInt_isInt (x : Int) : isInt (wrapInt x) := by
  unfold isInt INT_MIN INT_MAX wrapInt
  omega

theorem wrapInt_eq_iff (x : Int) : wrapInt x = x ↔ isInt x := by
  unfold isInt INT_MIN INT_MAX wrapInt
  omega

theorem wrapInt_wrapInt_add (x a : Int) : wrapInt (wrapInt x + a) = wrapInt (x + a) := by
  unfold wrapInt
  omega

/-! ## Single operations -/

/-- C1 (as stated, at a concrete input): after `Construct(2147483647)` the call
`Add(1)`, both arguments being values of type `int`, returns `-2147483648`,
which is not the sum `2147483647 + 1`. -/
theorem add_returns_sum_counterexample :
    isInt 2147483647 ∧ isInt 1 ∧
      ((Example.Construct 2147483647).add 1).2 = -2147483648 ∧
      ((Example.Construct 2147483647).add 1).2 ≠ 2147483647 + 1 := by
  decide

/-- C1 (amended): for all `int` values `i` and `a` whose sum `i + a` lies in
the `int` range, after `Construct(i)` the call `Add(a)` returns `i + a`, and a
subsequent `GetValue()` also returns `i + a`. -/
theorem add_returns_sum (i a : Int) (h : isInt (i + a)) :
    ((Example.Construct i).add a).2 = i + a ∧
      (((Example.Construct i).add a).1.getValue).2 = i + a := by
  simp only [Example.add, Example.addWith, Example.Construct, Example.getValue]
  exact ⟨wrapInt_eq_self h, wrapInt_eq_self h⟩

theorem add_returns_sum_witness :
    isInt (3 + 4) ∧
      (((Example.Construct 3).add 4).2 = 3 + 4 ∧
        (((Example.Construct 3).add 4).1.getValue).2 = 3 + 4) :=
  ⟨by decide, add_returns_sum 3 4 (by decide)⟩

/-- C2: for every integer `i`, the constructor stores `i` unaltered and
`Construct(i).GetValue()` returns exactly `i`. -/
theorem construct_getValue (i : Int) :
    (Example.Construct i).value_ = i ∧ ((Example.Construct i).getValue).2 = i :=
  ⟨rfl, rfl⟩

/-- C3: for all integers `i` and `j`, after `Construct(i)` then `SetValue(j)`,
`GetValue()` returns `j`; two holders constructed from different values `i` and
`k` read back the same after `SetValue(j)`. -/
theorem setValue_getValue (i j : Int) :
    (((Example.Construct i).setValue j).getValue).2 = j ∧
      ∀ k : Int, (((Example.Construct k).setValue j).getValue).2 =
        (((Example.Construct i).setValue j).getValue).2 :=
  ⟨rfl, fun _ => rfl⟩

/-- C4: `GetValue` is a pure read.  For every holder state `e`, the object
after `GetValue()` is `e`; and `n` consecutive `GetValue()` calls, for any `n`,
leave the object equal to `e` and all return the value `e` holds. -/
theorem getValue_pure_read (e : Example) (n : Nat) :
    (e.getValue).1 = e ∧
      e.run (List.replicate n Call.getValue) = (e, List.replicate n (some e.value_)) := by
  refine ⟨rfl, ?_⟩
  induction n with
  | zero => rfl
  | succ k ih =>
    simp only [List.replicate_succ, Example.run, Example.call, Example.getValue, ih]

/-! ## Totality and well-typed results -/

theorem call_valid {e : Example} {c : Call} (he : e.valid) (hc : c.wellTyped) :
    (e.call c).1.valid := by
  cases c with
  | getValue => exact he
  | setValue value => exact hc
  | add amount => exact wrapInt_isInt _

theorem run_valid (cs : List Call) :
    ∀ e : Example, e.valid → (∀ c ∈ cs, c.wellTyped) → (e.run cs).1.valid := by
  induction cs with
  | nil => intro e he _; exact he
  | cons c cs ih =>
    intro e he hcs
    exact ih _ (call_valid he (hcs c (List.mem_cons_self c cs)))
      (fun d hd => hcs d (List.mem_cons_of_mem c hd))

theorem run_length (cs : List Call) : ∀ e : Example, (e.run cs).2.length = cs.length := by
  induction cs with
  | nil => intro e; rfl
  | cons c cs ih => intro e; simp only [Example.run, List.length_cons, ih]

/-- C5: no operation can fail.  For every holder state `e` holding an `int`
and every `int` argument `x`, each of `Construct`, `GetValue`, `SetValue` and
`Add` produces its result: a new state holding an `int` and, for the methods
that return one, a returned `int`.  Every sequence `cs` of calls with `int`
arguments runs to its end, giving one result per call and a final state
holding an `int`. -/
theorem operations_total (e : Example) (x : Int) (cs : List Call)
    (he : e.valid) (hx : isInt x) (hcs : ∀ c ∈ cs, c.wellTyped) :
    (∃ e1 : Example, Example.Construct x = e1 ∧ e1.valid) ∧
      (∃ (e1 : Example) (r : Int), e.getValue = (e1, r) ∧ e1.valid ∧ isInt r) ∧
      (∃ e1 : Example, e.setValue x = e1 ∧ e1.valid) ∧
      (∃ (e1 : Example) (r : Int), e.add x = (e1, r) ∧ e1.valid ∧ isInt r) ∧
      (∃ (e1 : Example) (rs : List (Option Int)),
        e.run cs = (e1, rs) ∧ e1.valid ∧ rs.length = cs.length) :=
  ⟨⟨_, rfl, hx⟩, ⟨_, _, rfl, he, he⟩, ⟨_, rfl, hx⟩,
    ⟨_, _, rfl, wrapInt_isInt _, wrapInt_isInt _⟩,
    ⟨_, _, rfl, run_valid cs e he hcs, run_length cs e⟩⟩

theorem operations_total_witness :
    (Example.Construct 2147483647).valid ∧ isInt 7 ∧
      (∀ c ∈ [Call.add 1, Call.getValue], c.wellTyped) ∧
      ((∃ e1 : Example, Example.Construct 7 = e1 ∧ e1.valid) ∧
        (∃ (e1 : Example) (r : Int),
          (Example.Construct 2147483647).getValue = (e1, r) ∧ e1.valid ∧ isInt r) ∧
        (∃ e1 : Example, (Example.Construct 2147483647).setValue 7 = e1 ∧ e1.valid) ∧
        (∃ (e1 : Example) (r : Int),
          (Example.Construct 2147483647).add 7 = (e1, r) ∧ e1.valid ∧ isInt r) ∧
        (∃ (e1 : Example) (rs : List (Option Int)),
          (Example.Construct 2147483647).run [Call.add 1, Call.getValue] = (e1, rs) ∧
            e1.valid ∧ rs.length = [Call.add 1, Call.getValue].length)) :=
  ⟨by decide, by decide, by decide,
    operations_total (Example.Construct 2147483647) 7 [Call.add 1, Call.getValue]
      (by decide) (by decide) (by decide)⟩

/-! ## The state invariant over call sequences -/

theorem run_append_fst (cs : List Call) :
    ∀ (e : Example) (c : Call), (e.run (cs ++ [c])).1 = ((e.run cs).1.call c).1 := by
  induction cs with
  | nil => intro e c; rfl
  | cons d cs ih => intro e c; exact ih (e.call d).1 c

theorem run_reverse_value (i : Int) (hi : isInt i) (l : List Call) :
    (∀ c ∈ l, c.wellTyped) →
      ((Example.Construct i).run l.reverse).1.value_ = wrapInt (specValueRev i l) := by
  induction l with
  | nil => intro _; exact (wrapInt_eq_self hi).symm
  | cons c l ih =>
    intro hl
    have hrec := ih (fun d hd => hl d (List.mem_cons_of_mem c hd))
    have hc := hl c (List.mem_cons_self c l)
    rw [List.reverse_cons, run_append_fst]
    cases c with
    | getValue => exact hrec
    | setValue value => exact (wrapInt_eq_self hc).symm
    | add amount =>
      simp only [Example.call, Example.add, Example.addWith, specValueRev, hrec]
      exact wrapInt_wrapInt_add _ _

/-- C6 (as stated, at a concrete input): after `Construct(2147483647)` and the
one-call sequence `Add(1)`, the spec's invariant prescribes `2147483648` (the
initial value plus the amount added), while `GetValue()` returns
`-2147483648`. -/
theorem state_invariant_counterexample :
    isInt 2147483647 ∧ (Call.add 1).wellTyped ∧
      specValue 2147483647 [Call.add 1] = 2147483648 ∧
      ((((Example.Construct 2147483647).run [Call.add 1]).1).getValue).2 = -2147483648 ∧
      ((((Example.Construct 2147483647).run [Call.add 1]).1).getValue).2 ≠
        specValue 2147483647 [Call.add 1] := by
  decide

/-- C6 (amended): for every initial `int` `i` and every finite sequence `cs` of
`SetValue`/`Add` calls with `int` arguments (`GetValue` calls may be
interleaved) applied after `Construct(i)`, let `t` be the most recently
assigned integer (the argument of the last `SetValue`, or `i` if there was
none) plus the sum of the amounts of all `Add` calls made after that
assignment.  Then `GetValue()` returns the `int` congruent to `t` modulo
`2^32`; it returns `t` itself exactly when `t` lies in the `int` range. -/
theorem state_invariant (i : Int) (cs : List Call)
    (hi : isInt i) (hcs : ∀ c ∈ cs, c.wellTyped) :
    ((((Example.Construct i).run cs).1).getValue).2 = wrapInt (specValue i cs) ∧
      (((((Example.Construct i).run cs).1).getValue).2 = specValue i cs ↔
        isInt (specValue i cs)) := by
  have h : ((((Example.Construct i).run cs).1).getValue).2 = wrapInt (specValue i cs) := by
    have := run_reverse_value i hi cs.reverse (fun c hc => hcs c (List.mem_reverse.mp hc))
    rw [List.reverse_reverse] at this
    exact this
  exact ⟨h, by rw [h]; exact wrapInt_eq_iff _⟩

theorem state_invariant_witness :
    isInt 10 ∧ (∀ c ∈ [Call.add 1, Call.getValue], c.wellTyped) ∧
      (((((Example.Construct 10).run [Call.add 1, Call.getValue]).1).getValue).2 =
          wrapInt (specValue 10 [Call.add 1, Call.getValue]) ∧
        (((((Example.Construct 10).run [Call.add 1, Call.getValue]).1).getValue).2 =
            specValue 10 [Call.add 1, Call.getValue] ↔
          isInt (specValue 10 [Call.add 1, Call.getValue]))) :=
  ⟨by decide, by decide,
    state_invariant 10 [Call.add 1, Call.getValue] (by decide) (by decide)⟩

/-! ## Scenarios of two and three calls -/

/-- C7 (as stated, at a concrete input): after `Construct(0)` the call
`Add(2147483647)` returns `2147483647`, and the following call `Add(1)` returns
`-2147483648`, which is not `0 + 2147483647 + 1`; all three arguments are
values of type `int`. -/
theorem add_add_counterexample :
    isInt 0 ∧ isInt 2147483647 ∧ isInt 1 ∧
      ((Example.Construct 0).add 2147483647).2 = 2147483647 ∧
      ((((Example.Construct 0).add 2147483647).1).add 1).2 = -2147483648 ∧
      ((((Example.Construct 0).add 2147483647).1).add 1).2 ≠ 0 + 2147483647 + 1 := by
  decide

/-- C7 (amended): for all `int` values `i`, `a`, `b` such that `i + a` and
`i + a + b` lie in the `int` range, after `Construct(i)` the call `Add(a)`
returns `i + a`, the following call `Add(b)` returns `i + a + b`, `GetValue()`
then returns `i + a + b`, and the holder is in the state a single `Add(a + b)`
leaves it in.  In particular `Construct(0)`; `Add(5)` returns `5`; `Add(-3)`
returns `2`; `GetValue()` returns `2`. -/
theorem add_add_accumulates (i a b : Int) (h1 : isInt (i + a)) (h2 : isInt (i + a + b)) :
    ((Example.Construct i).add a).2 = i + a ∧
      ((((Example.Construct i).add a).1).add b).2 = i + a + b ∧
      ((((((Example.Construct i).add a).1).add b).1).getValue).2 = i + a + b ∧
      ((((Example.Construct i).add a).1).add b).1 = ((Example.Construct i).add (a + b)).1 ∧
      (((Example.Construct 0).add 5).2 = 5 ∧
        ((((Example.Construct 0).add 5).1).add (-3)).2 = 2 ∧
        ((((((Example.Construct 0).add 5).1).add (-3)).1).getValue).2 = 2) := by
  have e1 : wrapInt (i + a) = i + a := wrapInt_eq_self h1
  have e2 : wrapInt (i + a + b) = i + a + b := wrapInt_eq_self h2
  have e3 : wrapInt (i + (a + b)) = i + a + b := by rw [← Int.add_assoc]; exact e2
  refine ⟨?_, ?_, ?_, ?_, by decide⟩ <;>
    simp only [Example.add, Example.addWith, Example.Construct, Example.getValue, e1, e2, e3]

theorem add_add_accumulates_witness :
    isInt (0 + 5) ∧ isInt (0 + 5 + -3) ∧
      (((Example.Construct 0).add 5).2 = 0 + 5 ∧
        ((((Example.Construct 0).add 5).1).add (-3)).2 = 0 + 5 + -3 ∧
        ((((((Example.Construct 0).add 5).1).add (-3)).1).getValue).2 = 0 + 5 + -3 ∧
        ((((Example.Construct 0).add 5).1).add (-3)).1 =
          ((Example.Construct 0).add (5 + -3)).1 ∧
        (((Example.Construct 0).add 5).2 = 5 ∧
          ((((Example.Construct 0).add 5).1).add (-3)).2 = 2 ∧
          ((((((Example.Construct 0).add 5).1).add (-3)).1).getValue).2 = 2)) :=
  ⟨by decide, by decide, add_add_accumulates 0 5 (-3) (by decide) (by decide)⟩

/-- C8 (as stated, at a concrete input): after `Construct(10)` and
`SetValue(2147483647)`, the call `Add(1)` returns `-2147483648`, which is not
`2147483647 + 1`; all three arguments are values of type `int`. -/
theorem setValue_add_counterexample :
    isInt 10 ∧ isInt 2147483647 ∧ isInt 1 ∧
      ((((Example.Construct 10).setValue 2147483647)).add 1).2 = -2147483648 ∧
      ((((Example.Construct 10).setValue 2147483647)).add 1).2 ≠ 2147483647 + 1 := by
  decide

/-- C8 (amended): for all `int` values `i`, `j`, `a` such that `j + a` lies in
the `int` range, after `Construct(i)`; `SetValue(j)`, the call `Add(a)` returns
`j + a` and a subsequent `GetValue()` returns `j + a`, the same for every
initial value.  In particular `Construct(10)`; `SetValue(20)`; `Add(7)` returns
`27`; `GetValue()` returns `27`. -/
theorem setValue_add (i j a : Int) (h : isInt (j + a)) :
    (((Example.Construct i).setValue j).add a).2 = j + a ∧
      (((((Example.Construct i).setValue j).add a).1).getValue).2 = j + a ∧
      (∀ k : Int, ((Example.Construct k).setValue j).add a =
        ((Example.Construct i).setValue j).add a) ∧
      ((((Example.Construct 10).setValue 20).add 7).2 = 27 ∧
        (((((Example.Construct 10).setValue 20).add 7).1).getValue).2 = 27) := by
  have e1 : wrapInt (j + a) = j + a := wrapInt_eq_self h
  refine ⟨?_, ?_, fun _ => rfl, by decide⟩ <;>
    simp only [Example.add, Example.addWith, Example.setValue, Example.getValue, e1]

theorem setValue_add_witness :
    isInt (20 + 7) ∧
      ((((Example.Construct 10).setValue 20).add 7).2 = 20 + 7 ∧
        (((((Example.Construct 10).setValue 20).add 7).1).getValue).2 = 20 + 7 ∧
        (∀ k : Int, ((Example.Construct k).setValue 20).add 7 =
          ((Example.Construct 10).setValue 20).add 7) ∧
        ((((Example.Construct 10).setValue 20).add 7).2 = 27 ∧
          (((((Example.Construct 10).setValue 20).add 7).1).getValue).2 = 27)) :=
  ⟨by decide, setValue_add 10 20 7 (by decide)⟩

/-! ## Fixed-width arithmetic of `add` -/

/-- C9: with the field a 32-bit signed integer and overflow wrapping modulo
`2^32 = 4294967296`, for every stored value `v` and amount `a` in
`[-2^31, 2^31 - 1]`, `Add(a)` returns the exact sum `v + a` if and only if
`v + a` lies in `[-2^31, 2^31 - 1]`; otherwise the returned value differs from
`v + a` by exactly `2^32`: it is `v + a - 2^32` when the sum is above the range
and `v + a + 2^32` when it is below. -/
theorem add_fixed_width (e : Example) (a : Int) (he : e.valid) (ha : isInt a) :
    ((e.add a).2 = e.value_ + a ↔ isInt (e.value_ + a)) ∧
      (¬ isInt (e.value_ + a) →
        ((e.add a).2 - (e.value_ + a)).natAbs = 4294967296) ∧
      (INT_MAX < e.value_ + a → (e.add a).2 = e.value_ + a - 4294967296) ∧
      (e.value_ + a < INT_MIN → (e.add a).2 = e.value_ + a + 4294967296) := by
  have hv : isInt e.value_ := he
  simp only [Example.add, Example.addWith]
  unfold isInt INT_MIN INT_MAX at *
  unfold wrapInt
  refine ⟨by omega, ?_, by omega, by omega⟩
  intro h
  omega

theorem add_fixed_width_witness :
    (Example.Construct 2147483647).valid ∧ isInt 1 ∧
      ((((Example.Construct 2147483647).add 1).2 = (Example.Construct 2147483647).value_ + 1 ↔
          isInt ((Example.Construct 2147483647).value_ + 1)) ∧
        (¬ isInt ((Example.Construct 2147483647).value_ + 1) →
          (((Example.Construct 2147483647).add 1).2 -
            ((Example.Construct 2147483647).value_ + 1)).natAbs = 4294967296) ∧
        (INT_MAX < (Example.Construct 2147483647).value_ + 1 →
          ((Example.Construct 2147483647).add 1).2 =
            (Example.Construct 2147483647).value_ + 1 - 4294967296) ∧
        ((Example.Construct 2147483647).value_ + 1 < INT_MIN →
          ((Example.Construct 2147483647).add 1).2 =
            (Example.Construct 2147483647).value_ + 1 + 4294967296)) :=
  ⟨by decide, by decide, add_fixed_width (Example.Construct 2147483647) 1 (by decide) (by decide)⟩

/-- C10: `Add` returns the value it stored.  For every holder state `e` and
every amount `a`, the integer returned by `Add(a)` equals the integer returned
by a `GetValue()` call made immediately afterwards; this holds for the
wrapping addition and for any other treatment `ovf` of sums outside the `int`
range. -/
theorem add_returns_stored (e : Example) (a : Int) :
    (((e.add a).1).getValue).2 = (e.add a).2 ∧
      ∀ ovf : Int → Int, (((e.addWith ovf a).1).getValue).2 = (e.addWith ovf a).2 :=
  ⟨rfl, fun _ => rfl⟩

/-! ## Algebra of successive `add` calls -/

theorem wrapInt_add_right_comm (v a b : Int) :
    wrapInt (wrapInt (v + a) + b) = wrapInt (wrapInt (v + b) + a) := by
  unfold wrapInt
  omega

theorem wrapInt_add_neg_cancel (v a : Int) :
    wrapInt (wrapInt (v + a) + -a) = wrapInt v ∧
      wrapInt (wrapInt (v + a) + wrapInt (-a)) = wrapInt v := by
  unfold wrapInt
  omega

/-- C11: adds commute.  For every holder state `e` and all amounts `a` and `b`,
performing `Add(a)` then `Add(b)` gives the same final state and the same
integer returned by the second call as performing `Add(b)` then `Add(a)`. -/
theorem add_comm_calls (e : Example) (a b : Int) :
    (((e.add a).1).add b).1 = (((e.add b).1).add a).1 ∧
      (((e.add a).1).add b).2 = (((e.add b).1).add a).2 := by
  simp only [Example.add, Example.addWith, wrapInt_add_right_comm e.value_ a b, and_self]

/-- C12: add is undone by adding the negation.  For every holder state `e`
holding an `int` `v` and every amount `a`, performing `Add(a)` and then
`Add(-a)` returns `v` and leaves the holder in the state `e`, holding `v`
again.  The same holds when the second argument is the `int` that the negation
`-a` wraps to, which differs from `-a` only for `a = -2^31`. -/
theorem add_neg_undoes (e : Example) (a : Int) (he : e.valid) :
    ((((e.add a).1).add (-a)).2 = e.value_ ∧ (((e.add a).1).add (-a)).1 = e) ∧
      ((((e.add a).1).add (wrapInt (-a))).2 = e.value_ ∧
        (((e.add a).1).add (wrapInt (-a))).1 = e) := by
  have hv : wrapInt e.value_ = e.value_ := wrapInt_eq_self he
  obtain ⟨h1, h2⟩ := wrapInt_add_neg_cancel e.value_ a
  simp only [Example.add, Example.addWith, h1, h2, hv, and_self]

theorem add_neg_undoes_witness :
    (Example.Construct 5).valid ∧
      ((((((Example.Construct 5).add (-2147483648)).1).add (- -2147483648)).2 =
            (Example.Construct 5).value_ ∧
          ((((Example.Construct 5).add (-2147483648)).1).add (- -2147483648)).1 =
            Example.Construct 5) ∧
        (((((Example.Construct 5).add (-2147483648)).1).add (wrapInt (- -2147483648))).2 =
            (Example.Construct 5).value_ ∧
          ((((Example.Construct 5).add (-2147483648)).1).add (wrapInt (- -2147483648))).1 =
            Example.Construct 5)) :=
  ⟨by decide, add_neg_undoes (Example.Construct 5) (-2147483648) (by decide)⟩

end my_awesome_cpp_app
